import Mathlib

/-!
Verification development for the CodeShift repository: a CSS→Tailwind
converter that forwards input to a generative-AI completion provider
(`app/services/conversionService.ts`), post-processes the JSON reply
(markdown fence stripping, `JSON.parse`), and manages per-user conversion
history in a document store (`app/routes/layout.tsx`,
`app/routes/converters/css.tsx`).

The embedding translates the TypeScript sources into executable Lean
definitions: JavaScript truthiness is modelled explicitly, `JSON.parse`
is modelled by a fuel-based recursive-descent parser returning
`Option Json`, the fence stripping `text.replace(/```json/g, "")
.replace(/```/g, "").trim()` is modelled by structurally recursive
character-list scans with the same left-to-right non-overlapping
semantics, and the Firestore operations (batched deletes, merge writes)
are modelled by pure state transformers following Firestore's documented
atomic-batch and merge contracts.
-/

namespace CodeShift

/-! ## JavaScript truthiness for optional strings -/

/-- JS truthiness of a possibly-absent string: `null`/`undefined` and the
empty string are falsy, every other string is truthy. -/
def jsTruthyStr : Option String → Bool
  | none => false
  | some s => !s.isEmpty

/-! ## JSON values

`Json` models the result of `JSON.parse`.  Numbers are kept as their
source lexeme (the raw digit string), which is enough to compare parses
of related texts without modelling IEEE-754 numerics. -/

inductive Json where
  | null : Json
  | bool (b : Bool) : Json
  | num (lexeme : String) : Json
  | str (s : String) : Json
  | arr (items : List Json) : Json
  | obj (fields : List (String × Json)) : Json

/-- JS property access `j.k`: defined on objects, `undefined` (here `none`)
otherwise.  The last binding of a key wins, matching how a JS object built
from a parsed text overwrites duplicate keys. -/
def jsonField (j : Json) (k : String) : Option Json :=
  match j with
  | .obj fields => fields.reverse.lookup k
  | _ => none

/-- Is a number lexeme a JS zero (all mantissa digits `0`)?  Used only to
decide truthiness of `Json.num`. -/
def zeroLexeme (lexeme : String) : Bool :=
  (lexeme.data.takeWhile (fun c => c ≠ 'e' && c ≠ 'E')).all
    (fun c => c = '0' || c = '-' || c = '+' || c = '.')

/-- JS truthiness of a JSON value: `null`, `false`, `0`, `""` are falsy;
arrays and objects (including `[]` and `{}`) are truthy. -/
def jsTruthyJson : Json → Bool
  | .null => false
  | .bool b => b
  | .num lexeme => !zeroLexeme lexeme
  | .str s => !s.isEmpty
  | .arr _ => true
  | .obj _ => true

/-! ## A model of `JSON.parse`

Recursive-descent parser with explicit fuel (structural recursion on the
fuel, so concrete instances evaluate by `decide`/`rfl`).  Supports the
JSON grammar: literals, strings with the standard escapes including
`\uXXXX`, numbers (sign, integer part with the leading-zero rule,
fraction, exponent), arrays and objects, with JSON whitespace
(space, tab, LF, CR) between tokens. -/

/-- JSON whitespace (`ws` in RFC 8259): space, tab, line feed, carriage
return. -/
def jsonWs (c : Char) : Bool :=
  c = ' ' || c = '\t' || c = '\n' || c = '\r'

/-- Skip leading JSON whitespace. -/
def skipWs (s : List Char) : List Char := s.dropWhile jsonWs

/-- Value of a hex digit. -/
def hexVal (c : Char) : Option Nat :=
  if '0' ≤ c ∧ c ≤ '9' then some (c.toNat - '0'.toNat)
  else if 'a' ≤ c ∧ c ≤ 'f' then some (c.toNat - 'a'.toNat + 10)
  else if 'A' ≤ c ∧ c ≤ 'F' then some (c.toNat - 'A'.toNat + 10)
  else none

/-- Parse the body of a JSON string after the opening quote; returns the
decoded characters and the remainder after the closing quote. -/
def parseStringBody : Nat → List Char → Option (List Char × List Char)
  | 0, _ => none
  | _ + 1, [] => none
  | fuel + 1, c :: rest =>
    if c = '"' then some ([], rest)
    else if c = '\\' then
      match rest with
      | [] => none
      | e :: rest' =>
        let decoded : Option (Char × List Char) :=
          if e = '"' then some ('"', rest')
          else if e = '\\' then some ('\\', rest')
          else if e = '/' then some ('/', rest')
          else if e = 'n' then some ('\n', rest')
          else if e = 't' then some ('\t', rest')
          else if e = 'r' then some ('\r', rest')
          else if e = 'b' then some ('\x08', rest')
          else if e = 'f' then some ('\x0c', rest')
          else if e = 'u' then
            match rest' with
            | h1 :: h2 :: h3 :: h4 :: rest'' =>
              match hexVal h1, hexVal h2, hexVal h3, hexVal h4 with
              | some v1, some v2, some v3, some v4 =>
                let n := ((v1 * 16 + v2) * 16 + v3) * 16 + v4
                some (Char.ofNat n, rest'')
              | _, _, _, _ => none
            | _ => none
          else none
        match decoded with
        | some (d, r) =>
          match parseStringBody fuel r with
          | some (cs, r') => some (d :: cs, r')
          | none => none
        | none => none
    else if c.toNat < 0x20 then none
    else
      match parseStringBody fuel rest with
      | some (cs, r') => some (c :: cs, r')
      | none => none

/-- Parse the digits-and-beyond part of a JSON number starting at a digit
run; returns the lexeme characters consumed. -/
def takeDigits (s : List Char) : List Char × List Char :=
  (s.takeWhile Char.isDigit, s.dropWhile Char.isDigit)

/-- Parse a JSON number; returns the full lexeme and the remainder.
Enforces the JSON rules: optional minus, an integer part that is `0` or
starts with a nonzero digit, an optional fraction with at least one
digit, an optional exponent with at least one digit. -/
def parseNumber (s : List Char) : Option (List Char × List Char) :=
  let signSplit : List Char × List Char :=
    match s with
    | '-' :: rest => (['-'], rest)
    | _ => ([], s)
  let neg := signSplit.1
  let s1 := signSplit.2
  match takeDigits s1 with
  | ([], _) => none
  | (intPart, s2) =>
    if intPart.length > 1 ∧ intPart.head? = some '0' then none
    else
      let fracResult : Option (List Char × List Char) :=
        match s2 with
        | '.' :: rest =>
          match takeDigits rest with
          | ([], _) => none
          | (ds, r) => some ('.' :: ds, r)
        | _ => some ([], s2)
      match fracResult with
      | none => none
      | some (fracPart, s3) =>
        let expResult : Option (List Char × List Char) :=
          match s3 with
          | e :: rest =>
            if e = 'e' ∨ e = 'E' then
              let signSplit2 : List Char × List Char :=
                match rest with
                | c :: r2 => if c = '+' ∨ c = '-' then ([c], r2) else ([], c :: r2)
                | [] => ([], [])
              match takeDigits signSplit2.2 with
              | ([], _) => none
              | (ds, r) => some (e :: (signSplit2.1 ++ ds), r)
            else some ([], s3)
          | [] => some ([], [])
        match expResult with
        | none => none
        | some (expPart, s4) => some (neg ++ intPart ++ fracPart ++ expPart, s4)

mutual

/-- A model of `JSON.parse`'s value grammar: parse one JSON value,
returning it with the unconsumed remainder.  Structural recursion on the
fuel so concrete calls evaluate inside `decide`/`rfl`. -/
def parseVal : Nat → List Char → Option (Json × List Char)
  | 0, _ => none
  | fuel + 1, s =>
    match skipWs s with
    | [] => none
    | 'n' :: rest =>
      if ['u', 'l', 'l'].isPrefixOf rest then some (.null, rest.drop 3) else none
    | 't' :: rest =>
      if ['r', 'u', 'e'].isPrefixOf rest then some (.bool true, rest.drop 3) else none
    | 'f' :: rest =>
      if ['a', 'l', 's', 'e'].isPrefixOf rest then some (.bool false, rest.drop 4) else none
    | '"' :: rest =>
      match parseStringBody (rest.length + 1) rest with
      | some (cs, r) => some (.str (String.mk cs), r)
      | none => none
    | '[' :: rest =>
      match skipWs rest with
      | ']' :: r => some (.arr [], r)
      | s' =>
        match parseArrItems fuel s' with
        | some (items, r) => some (.arr items, r)
        | none => none
    | '{' :: rest =>
      match skipWs rest with
      | '}' :: r => some (.obj [], r)
      | s' =>
        match parseObjItems fuel s' with
        | some (fields, r) => some (.obj fields, r)
        | none => none
    | c :: rest =>
      if c = '-' ∨ c.isDigit then
        match parseNumber (c :: rest) with
        | some (lex, r) => some (.num (String.mk lex), r)
        | none => none
      else none

/-- Comma-separated array items up to the closing `]`. -/
def parseArrItems : Nat → List Char → Option (List Json × List Char)
  | 0, _ => none
  | fuel + 1, s =>
    match parseVal fuel s with
    | none => none
    | some (v, r) =>
      match skipWs r with
      | ',' :: r2 =>
        match parseArrItems fuel r2 with
        | some (vs, r3) => some (v :: vs, r3)
        | none => none
      | ']' :: r2 => some ([v], r2)
      | _ => none

/-- Comma-separated `"key": value` members up to the closing `}`. -/
def parseObjItems : Nat → List Char → Option (List (String × Json) × List Char)
  | 0, _ => none
  | fuel + 1, s =>
    match skipWs s with
    | '"' :: rest =>
      match parseStringBody (rest.length + 1) rest with
      | some (key, r) =>
        match skipWs r with
        | ':' :: r2 =>
          match parseVal fuel r2 with
          | none => none
          | some (v, r3) =>
            match skipWs r3 with
            | ',' :: r4 =>
              match parseObjItems fuel r4 with
              | some (fs, r5) => some ((String.mk key, v) :: fs, r5)
              | none => none
            | '}' :: r4 => some ([(String.mk key, v)], r4)
            | _ => none
        | _ => none
      | none => none
    | _ => none

end

/-- The model of `JSON.parse` on character lists: parse one value and
require only whitespace to follow.  The fuel `3 * length + 8` dominates
the parser's call depth on any input. -/
def parseJsonL (s : List Char) : Option Json :=
  match parseVal (3 * s.length + 8) s with
  | some (v, r) => if skipWs r = [] then some v else none
  | none => none

/-- The model of `JSON.parse` on strings. -/
def parseJson (s : String) : Option Json :=
  parseJsonL s.data

/-! ## Markdown fence stripping

`conversionService.ts` line 52:
`text = text.replace(/```json/g, "").replace(/```/g, "").trim();`
Each `replace(..., "")` removes every left-to-right non-overlapping
occurrence of the pattern; `trim()` removes leading and trailing
JavaScript whitespace.  The two removals are modelled by structurally
recursive scans specialised to the two concrete patterns. -/

/-- Remove every left-to-right occurrence of `'''json` (the regex
`/```json/g` with replacement `""`). -/
def stripJsonFence : List Char → List Char
  | '`' :: '`' :: '`' :: 'j' :: 's' :: 'o' :: 'n' :: rest => stripJsonFence rest
  | c :: rest => c :: stripJsonFence rest
  | [] => []

/-- Remove every left-to-right occurrence of three backticks (the regex
`/```/g` with replacement `""`). -/
def stripTicks : List Char → List Char
  | '`' :: '`' :: '`' :: rest => stripTicks rest
  | c :: rest => c :: stripTicks rest
  | [] => []

/-- Does the text contain three consecutive backticks anywhere? -/
def hasTicks : List Char → Bool
  | '`' :: '`' :: '`' :: _ => true
  | _ :: rest => hasTicks rest
  | [] => false

/-- Length of the leading run of backticks. -/
def leadTicks : List Char → Nat
  | '`' :: rest => leadTicks rest + 1
  | _ => 0

/-- The whitespace class removed by JavaScript `String.prototype.trim`:
ASCII whitespace plus the Unicode space separators, NBSP, BOM and the
line separators. -/
def jsWhitespace (c : Char) : Bool :=
  c = ' ' || c = '\t' || c = '\n' || c = '\r' ||
  c.toNat = 0x0b || c.toNat = 0x0c || c.toNat = 0xa0 || c.toNat = 0xfeff ||
  c.toNat = 0x1680 || (0x2000 <= c.toNat && c.toNat <= 0x200a) ||
  c.toNat = 0x2028 || c.toNat = 0x2029 || c.toNat = 0x202f ||
  c.toNat = 0x205f || c.toNat = 0x3000

/-- Drop trailing JS whitespace (structurally recursive form). -/
def trimEndL : List Char → List Char
  | [] => []
  | c :: rest =>
    let r := trimEndL rest
    if r.isEmpty && jsWhitespace c then [] else c :: r

/-- JavaScript `String.prototype.trim` on character lists. -/
def trimL (s : List Char) : List Char :=
  trimEndL (s.dropWhile jsWhitespace)

/-- The post-processing of the provider reply, from `conversionService.ts`
line 52: remove all `'''json` occurrences, then all `'''` occurrences,
then trim. -/
def stripFencesL (s : List Char) : List Char :=
  trimL (stripTicks (stripJsonFence s))

/-- Fence stripping on strings. -/
def stripFencesStr (s : String) : String :=
  ⟨stripFencesL s.data⟩

/-- A provider reply that wraps the payload `p` in a language-tagged
markdown fence block, the shape the provider is known to emit. -/
def fencedWrap (p : String) : String :=
  "```json\n" ++ p ++ "\n```"

/-! ## The conversion service (`app/services/conversionService.ts`)

`runConversionTask` checks the API key, issues the provider request,
rejects a non-ok response with the provider's message, extracts the first
candidate's first text part (falling back to an empty-object literal),
strips fences and parses.  The surrounding `try`/`catch` re-throws every
inner failure as `AI Service Failed: <message>`.  The provider response
is modelled by the shapes the code reads from it; the network itself is
modelled by passing the response as a value, and the returned `Bool`
records whether a network call was issued. -/

/-- Model of `data.error` of the provider body: `{message, status}` with
both fields possibly absent. -/
structure ProviderErrorInfo where
  message : Option String
  status : Option String

/-- One part of a candidate's content: `{text}` possibly absent. -/
structure ProviderPart where
  text : Option String

/-- A candidate's content: `{parts}` possibly absent. -/
structure ProviderContent where
  parts : Option (List ProviderPart)

/-- One reply candidate: `{content}` possibly absent. -/
structure ProviderCandidate where
  content : Option ProviderContent

/-- The provider's JSON body as the service reads it. -/
structure ProviderBody where
  error : Option ProviderErrorInfo
  candidates : Option (List ProviderCandidate)

/-- The fetch response: HTTP ok flag plus decoded body. -/
structure ProviderResp where
  ok : Bool
  body : ProviderBody

/-- JavaScript `a || b` on a possibly-absent string: the left operand
when truthy (present and non-empty), `b` otherwise. -/
def jsOrStr (a : Option String) (b : String) : String :=
  match a with
  | some s => if s.isEmpty then b else s
  | none => b

/-- Model of `data.error?.message || data.error?.status || "API Error"`
from `conversionService.ts` line 48. -/
def errMsg (b : ProviderBody) : String :=
  jsOrStr (b.error.bind (·.message)) (jsOrStr (b.error.bind (·.status)) "API Error")

/-- Model of `data.candidates?.[0]?.content?.parts?.[0]?.text || "{}"`:
optional chaining, then JS `||` substituting the empty-object literal for
an absent or empty text. -/
def extractText (b : ProviderBody) : String :=
  let t : Option String := do
    let cs ← b.candidates
    let c0 ← cs.head?
    let ct ← c0.content
    let ps ← ct.parts
    let p0 ← ps.head?
    p0.text
  match t with
  | some s => if s.isEmpty then "\x7b\x7d" else s
  | none => "\x7b\x7d"

/-- Model of `runConversionTask` from `conversionService.ts`.  `apiKey` models the
`GEMINI_API_KEY` environment value; `parseErrMsg` models the JavaScript
engine's `SyntaxError.message` for a failing `JSON.parse` input (that
message is produced by the engine, not by this repository's code);
`resp` is the provider's response.  Returns the outcome together with a
`Bool` recording whether the network call was issued. -/
def runConversionTask (apiKey : Option String) (parseErrMsg : String → String)
    (inputCode : String) (resp : ProviderResp) : Except String Json × Bool :=
  if !jsTruthyStr apiKey then (.error "Server API Key missing.", false)
  else
    let _ := inputCode  -- sent as the sole user content of the request
    if !resp.ok then (.error ("AI Service Failed: " ++ errMsg resp.body), true)
    else
      let text := extractText resp.body
      let stripped := stripFencesStr text
      match parseJson stripped with
      | some j => (.ok j, true)
      | none => (.error ("AI Service Failed: " ++ parseErrMsg stripped), true)

/-! ## The route action (`app/routes/converters/css.tsx` lines 16–28)

The action reads `inputCode` from the form data (`null` when absent),
rejects a falsy value with `{error: "No input provided"}`, and otherwise
returns `runConversionTask`'s result, catching a thrown error as
`{error: message}`.  The action's value is the JSON the fetcher hands to
the client effect. -/

/-- The route action.  Returns the fetcher data together with the
network-call flag. -/
def cssAction (inputCode : Option String) (apiKey : Option String)
    (parseErrMsg : String → String) (resp : ProviderResp) : Json × Bool :=
  if !jsTruthyStr inputCode then
    (.obj [("error", .str "No input provided")], false)
  else
    match runConversionTask apiKey parseErrMsg (inputCode.getD "") resp with
    | (.ok result, n) => (result, n)
    | (.error msg, n) => (.obj [("error", .str msg)], n)

/-! ## JS string conversions used by the client component -/

/-- Escaping of one character inside a `JSON.stringify` string literal.
Other control characters (which JS would emit as `\uXXXX`) are left raw;
no theorem below depends on them. -/
def escapeJsonChar (c : Char) : List Char :=
  if c = '"' then ['\\', '"']
  else if c = '\\' then ['\\', '\\']
  else if c = '\n' then ['\\', 'n']
  else if c = '\t' then ['\\', 't']
  else if c = '\r' then ['\\', 'r']
  else if c = '\x08' then ['\\', 'b']
  else if c = '\x0c' then ['\\', 'f']
  else [c]

/-- Escaped body of a `JSON.stringify` string literal. -/
def escapeJsonStr (s : String) : String :=
  ⟨s.data.foldr (fun c acc => escapeJsonChar c ++ acc) []⟩

mutual

/-- Model of `JSON.stringify` (no indentation), used when the component
serializes `data.conversions` into the history record. -/
def jsonStringify : Json → String
  | .null => "null"
  | .bool true => "true"
  | .bool false => "false"
  | .num l => l
  | .str s => "\"" ++ escapeJsonStr s ++ "\""
  | .arr xs => "[" ++ stringifyItems xs ++ "]"
  | .obj fs => "\x7b" ++ stringifyFields fs ++ "\x7d"

/-- Comma-joined stringified array items. -/
def stringifyItems : List Json → String
  | [] => ""
  | [x] => jsonStringify x
  | x :: xs => jsonStringify x ++ "," ++ stringifyItems xs

/-- Comma-joined stringified object members. -/
def stringifyFields : List (String × Json) → String
  | [] => ""
  | [(k, v)] => "\"" ++ escapeJsonStr k ++ "\":" ++ jsonStringify v
  | (k, v) :: fs =>
    "\"" ++ escapeJsonStr k ++ "\":" ++ jsonStringify v ++ "," ++ stringifyFields fs

end

mutual

/-- Model of JS string coercion `String(v)` as a template literal applies
it to an interpolated value. -/
def jsToString : Json → String
  | .null => "null"
  | .bool true => "true"
  | .bool false => "false"
  | .num l => l
  | .str s => s
  | .arr xs => jsJoinElems xs
  | .obj _ => "[object Object]"

/-- Comma-joined element coercion of `Array.prototype.join`, which maps a
`null` element to the empty string. -/
def jsJoinElems : List Json → String
  | [] => ""
  | [x] => (match x with | .null => "" | y => jsToString y)
  | x :: xs => (match x with | .null => "" | y => jsToString y) ++ "," ++ jsJoinElems xs

end

/-! ## The client component state (`app/routes/converters/css.tsx`)

The component keeps `cssInput`, `conversions` and `analysis` in state.
`conversions` and `analysis` hold whatever JS value was assigned (the
TypeScript annotations are not enforced at runtime), so they are
modelled as raw `Json` values. -/

/-- The component state touched by the response handler and history
loader. -/
structure ViewState where
  cssInput : String
  conversions : Json
  analysis : Json

/-- One record handed to `addDoc` on
`users/<uid>/conversions` (effect 2 of `CssConverter`). -/
structure HistoryWrite where
  type : String
  input : String
  output : String
  analysis : Json
  timestamp : Int

/-- Model of effect 2 of `CssConverter` (css.tsx lines 60–81): handle the
fetcher's action data.  On `data.error` (truthy) the analysis becomes the
prefixed error message and the conversions list is reset to `[]`; on
`data.conversions` (truthy) the result is displayed and, only when a
user id is present, appended to the history store.  Returns the new
state and the list of issued history writes. -/
def handleFetcherData (data : Json) (userId : Option String) (cssInput : String)
    (now : Int) (prev : ViewState) : ViewState × List HistoryWrite :=
  if !jsTruthyJson data then (prev, [])
  else
    let errF := (jsonField data "error").getD .null
    if jsTruthyJson errF then
      ({ prev with analysis := .str ("Error: " ++ jsToString errF),
                   conversions := .arr [] }, [])
    else
      let convF := (jsonField data "conversions").getD .null
      if jsTruthyJson convF then
        let analysisF := (jsonField data "analysis").getD .null
        let st : ViewState :=
          { prev with analysis := analysisF, conversions := convF }
        if jsTruthyStr userId then
          (st, [{ type := "css", input := cssInput,
                  output := jsonStringify convF, analysis := analysisF,
                  timestamp := now }])
        else (st, [])
      else (prev, [])

/-! ## History items and the history loader -/

/-- A history record as `layout.tsx` types it. -/
structure HistoryItem where
  id : String
  type : String
  input : String
  output : String
  analysis : String
  timestamp : Int
deriving DecidableEq

/-- Model of effect 1 of `CssConverter` (css.tsx lines 45–57): load a
clicked history item into the view.  The `try`/`catch` around
`JSON.parse(historyItemToLoad.output)` degrades an unparseable record to
a single synthetic item with a fixed error message; the function is
total, so the load path never throws. -/
def loadHistoryItemView (item : HistoryItem) (prev : ViewState) : ViewState :=
  if item.type = "css" then
    { cssInput := item.input,
      analysis := .str item.analysis,
      conversions :=
        match parseJson item.output with
        | some j => j
        | none => .arr [.obj [("error", .str "Could not parse history item.")]] }
  else prev

/-! ## The retention sweep (`app/routes/layout.tsx` lines 41–60) -/

/-- Thirty days in milliseconds, `THIRTY_DAYS_MS` of `layout.tsx`. -/
def THIRTY_DAYS_MS : Int := 30 * 24 * 60 * 60 * 1000

/-- Document ids collected into the deletion batch by
`cleanupOldHistory`: every listed item strictly older than
`now - THIRTY_DAYS_MS`. -/
def expiredIds (now : Int) (currentHistory : List HistoryItem) : List String :=
  (currentHistory.filter (fun item => item.timestamp < now - THIRTY_DAYS_MS)).map (·.id)

/-- Model of `cleanupOldHistory`: a no-op when `keepForever` is set;
otherwise one `writeBatch` deleting every expired id, committed only when
the batch is non-empty.  Firestore applies a committed batch atomically,
so the store transitions in a single step from `store` to `store` minus
the batched ids. -/
def cleanupOldHistory (keepForever : Bool) (now : Int)
    (currentHistory : List HistoryItem) (store : List HistoryItem) :
    List HistoryItem :=
  if keepForever then store
  else
    let batch := expiredIds now currentHistory
    if batch.isEmpty then store
    else store.filter (fun d => !batch.contains d.id)

/-! ## Clear-all (`app/routes/layout.tsx` lines 123–132) -/

/-- Model of `clearAllHistory`: guarded by a present user id and the
confirmation dialog; queries every document of the user's conversions
collection and deletes all of them in one `writeBatch`.  Firestore's
batch commit is atomic: on success every batched delete applies, on
failure none does — `commitSucceeds` selects between the two, and no
intermediate state exists. -/
def clearAllHistory (userId : Option String) (confirmed : Bool)
    (store : List HistoryItem) (commitSucceeds : Bool) : List HistoryItem :=
  if !jsTruthyStr userId then store
  else if !confirmed then store
  else if commitSucceeds then
    store.filter (fun d => !(store.map (·.id)).contains d.id)
  else store

/-! ## Per-user settings (`app/routes/layout.tsx` lines 63–73 and
134–141) -/

/-- Model of the `loadSettings` effect: reading
`users/<uid>/settings/general`.  When the document is absent
(`docSnap.exists()` false) the state is left at its React initial value;
when present, `keepForever` becomes the truthiness of
`data().keepForever || false`. -/
def loadSettingsKeepForever (initialState : Bool)
    (generalDoc : Option (List (String × Json))) : Bool :=
  match generalDoc with
  | none => initialState
  | some fields =>
    match fields.reverse.lookup "keepForever" with
    | some v => jsTruthyJson v
    | none => false

/-- Model of Firestore `setDoc(..., fields, \x7bmerge: true\x7d)` on a
document: updated keys take the new value, every other key of the
existing document is preserved (Firestore's documented merge contract). -/
def setDocMerge (existing : Option (List (String × Json)))
    (updates : List (String × Json)) : List (String × Json) :=
  updates ++ (existing.getD []).filter (fun kv => !(updates.map (·.1)).contains kv.1)

/-- Model of `toggleKeepHistory`: flips the state and merge-writes only
the `keepForever` field of `users/<uid>/settings/general`.  Returns the
new state and the new settings document. -/
def toggleKeepHistory (userId : Option String) (keepForever : Bool)
    (generalDoc : Option (List (String × Json))) :
    Bool × Option (List (String × Json)) :=
  if !jsTruthyStr userId then (keepForever, generalDoc)
  else
    let newValue := !keepForever
    (newValue, some (setDocMerge generalDoc [("keepForever", .bool newValue)]))

/-! ## Helper lemmas -/

/-- Looking a key up past entries whose keys are filtered away only on a
different key is unchanged. -/
theorem lookup_filter_ne (l : List (String × Json)) (k bad : String) (hk : k ≠ bad) :
    (l.filter (fun kv => !decide (kv.1 = bad))).lookup k = l.lookup k := by
  induction l with
  | nil => rfl
  | cons hd tl ih =>
    obtain ⟨k', v⟩ := hd
    by_cases hk' : k' = bad
    · subst hk'
      have hne : (k == k') = false := by simpa using hk
      simp [List.filter_cons, List.lookup, hne, ih]
    · simp only [List.filter_cons, decide_eq_true_eq, hk', decide_eq_false hk', Bool.not_false,
        if_true]
      by_cases hkk : k = k'
      · subst hkk; simp [List.lookup]
      · have hne : (k == k') = false := by simpa using hkk
        simp [List.lookup, hne, ih]

/-- A non-empty string is JS-truthy. -/
theorem jsTruthyStr_of_ne (s : String) (h : s ≠ "") : jsTruthyStr (some s) = true := by
  simp only [jsTruthyStr, Bool.not_eq_true']
  rw [Bool.eq_false_iff]
  intro he
  exact h ((String.isEmpty_iff s).mp he)

/-- The network-call flag of `runConversionTask` equals the truthiness of
the API key: the fetch is issued exactly when the key check passes, on
every input including whitespace-only ones. -/
theorem runConversionTask_network (apiKey : Option String) (pem : String → String)
    (inputCode : String) (resp : ProviderResp) :
    (runConversionTask apiKey pem inputCode resp).2 = jsTruthyStr apiKey := by
  unfold runConversionTask
  by_cases hk : jsTruthyStr apiKey
  · simp only [hk, Bool.not_true, Bool.false_eq_true, if_false]
    by_cases ho : resp.ok
    · simp only [ho, Bool.not_true, Bool.false_eq_true, if_false]
      split <;> rfl
    · simp [ho]
  · simp only [Bool.not_eq_true] at hk
    simp [hk]

/-! ## C2 — the retention sweep -/

/-- C2: for every user and current history list, the sweep with
`keepForever = true` deletes nothing regardless of item age; with
`keepForever = false` it deletes, in one batch, exactly the items whose
timestamp is strictly below `now - THIRTY_DAYS_MS` and retains every
other item (stated on a history whose document ids are distinct, as
Firestore guarantees). -/
theorem retention_sweep_policy :
    (∀ (now : Int) (items store : List HistoryItem),
        cleanupOldHistory true now items store = store) ∧
    (∀ (now : Int) (items : List HistoryItem),
        (items.map (·.id)).Nodup →
        cleanupOldHistory false now items items =
          items.filter (fun i => !decide (i.timestamp < now - THIRTY_DAYS_MS))) := by
  constructor
  · intro now items store
    simp [cleanupOldHistory]
  · intro now items hnd
    unfold cleanupOldHistory
    simp only [if_neg (Bool.false_ne_true)]
    by_cases hb : (expiredIds now items).isEmpty
    · simp only [hb, if_true]
      have hfil : items.filter (fun i => decide (i.timestamp < now - THIRTY_DAYS_MS)) = [] := by
        have := List.isEmpty_iff.mp hb
        unfold expiredIds at this
        exact List.map_eq_nil_iff.mp this
      have : ∀ i ∈ items, ¬(i.timestamp < now - THIRTY_DAYS_MS) := by
        intro i hi hlt
        have : i ∈ items.filter (fun i => decide (i.timestamp < now - THIRTY_DAYS_MS)) :=
          List.mem_filter.mpr ⟨hi, by simpa using hlt⟩
        simp [hfil] at this
      rw [List.filter_eq_self.mpr]
      intro a ha
      simpa using this a ha
    · simp only [hb, if_false]
      apply List.filter_congr
      intro d hd
      have hconv : (expiredIds now items).contains d.id =
          decide (d.id ∈ expiredIds now items) := List.elem_eq_mem _ _
      have hcontains : (expiredIds now items).contains d.id =
          decide (d.timestamp < now - THIRTY_DAYS_MS) := by
        rw [hconv]
        by_cases hexp : d.timestamp < now - THIRTY_DAYS_MS
        · rw [decide_eq_true hexp, decide_eq_true]
          simp only [expiredIds, List.mem_map, List.mem_filter]
          exact ⟨d, ⟨hd, by simpa using hexp⟩, rfl⟩
        · rw [decide_eq_false hexp, decide_eq_false]
          intro hmem
          simp only [expiredIds, List.mem_map, List.mem_filter] at hmem
          obtain ⟨j, ⟨hjmem, hjexp⟩, hid⟩ := hmem
          have : j = d := List.inj_on_of_nodup_map hnd hjmem hd hid
          subst this
          exact hexp (by simpa using hjexp)
      rw [hcontains]

/-- Witness for C2 at the spec's own example: `now = T`, items aged 40
and 10 days; the sweep with `keepForever = false` deletes exactly the
40-day item and retains the 10-day one, and with `keepForever = true`
deletes nothing. -/
theorem retention_sweep_policy_witness :
    cleanupOldHistory false 4000000000000
      [⟨"doc-a", "css", "in-a", "out-a", "an-a", 4000000000000 - 3456000000⟩,
       ⟨"doc-b", "css", "in-b", "out-b", "an-b", 4000000000000 - 864000000⟩]
      [⟨"doc-a", "css", "in-a", "out-a", "an-a", 4000000000000 - 3456000000⟩,
       ⟨"doc-b", "css", "in-b", "out-b", "an-b", 4000000000000 - 864000000⟩] =
      [⟨"doc-b", "css", "in-b", "out-b", "an-b", 4000000000000 - 864000000⟩] ∧
    cleanupOldHistory true 4000000000000
      [⟨"doc-a", "css", "in-a", "out-a", "an-a", 4000000000000 - 3456000000⟩,
       ⟨"doc-b", "css", "in-b", "out-b", "an-b", 4000000000000 - 864000000⟩]
      [⟨"doc-a", "css", "in-a", "out-a", "an-a", 4000000000000 - 3456000000⟩,
       ⟨"doc-b", "css", "in-b", "out-b", "an-b", 4000000000000 - 864000000⟩] =
      [⟨"doc-a", "css", "in-a", "out-a", "an-a", 4000000000000 - 3456000000⟩,
       ⟨"doc-b", "css", "in-b", "out-b", "an-b", 4000000000000 - 864000000⟩] :=
  ⟨by rw [retention_sweep_policy.2 4000000000000 _ (by decide)]; rfl,
   retention_sweep_policy.1 4000000000000 _ _⟩

/-! ## C5 — clear-all atomicity -/

/-- C5: `clearAllHistory` deletes every document of the user's collection
in one batched commit; since the commit is atomic, the store after the
call is either unchanged or empty — no partially-cleared state is
observable. -/
theorem clear_all_atomic (userId : Option String) (confirmed : Bool)
    (store : List HistoryItem) (commitSucceeds : Bool) :
    clearAllHistory userId confirmed store commitSucceeds = store ∨
    clearAllHistory userId confirmed store commitSucceeds = [] := by
  unfold clearAllHistory
  by_cases hu : jsTruthyStr userId
  · by_cases hc : confirmed
    · by_cases hs : commitSucceeds
      · right
        simp only [hu, hc, hs, Bool.not_true, if_false, if_true]
        apply List.filter_eq_nil_iff.mpr
        intro d hd
        have hmem : (store.map (·.id)).contains d.id = true :=
          List.elem_eq_true_of_mem (List.mem_map.mpr ⟨d, hd, rfl⟩)
        simp only [hmem, Bool.not_true, Bool.false_eq_true, not_false_eq_true]
      · left; simp [hu, hc, hs]
    · left; simp [hu, hc]
  · left; simp [hu]

/-! ## C8 — settings default and merge write -/

/-- C8: reading the settings when the per-user document is absent leaves
`keepForever` at its initial `false`; toggling writes only the
`keepForever` field with merge semantics, so every other field of the
settings document is preserved. -/
theorem settings_default_and_merge :
    loadSettingsKeepForever false none = false ∧
    (∀ (uid : Option String) (kf : Bool) (doc : Option (List (String × Json))),
        jsTruthyStr uid = true →
        (toggleKeepHistory uid kf doc).1 = !kf ∧
        ∃ newDoc, (toggleKeepHistory uid kf doc).2 = some newDoc ∧
          newDoc.lookup "keepForever" = some (.bool (!kf)) ∧
          ∀ k, k ≠ "keepForever" → newDoc.lookup k = (doc.getD []).lookup k) := by
  refine ⟨rfl, ?_⟩
  intro uid kf doc hu
  unfold toggleKeepHistory
  simp only [hu, Bool.not_true, if_false]
  refine ⟨rfl, setDocMerge doc [("keepForever", .bool (!kf))], rfl, ?_, ?_⟩
  · simp [setDocMerge, List.lookup]
  · intro k hk
    unfold setDocMerge
    have hne : (k == "keepForever") = false := by simpa using hk
    simp only [List.map_cons, List.map_nil, List.cons_append, List.nil_append, List.lookup, hne]
    have hfun : (fun kv : String × Json => !(["keepForever"].contains kv.1)) =
        (fun kv : String × Json => !decide (kv.1 = "keepForever")) := by
      funext kv
      simp [List.contains_cons]
    rw [hfun]
    exact lookup_filter_ne _ _ _ hk

/-! ## Lemmas about fence stripping (toward C3) -/

/-- Scanning step of `stripTicks` at a position where the three-backtick
pattern does not match. -/
theorem stripTicks_cons_ne (c : Char) (rest : List Char)
    (h : ∀ r, c = '`' → rest = '`' :: '`' :: r → False) :
    stripTicks (c :: rest) = c :: stripTicks rest := by
  rw [stripTicks.eq_def]
  split
  · next r heq =>
    simp only [List.cons.injEq] at heq
    exact (h r heq.1 heq.2).elim
  · next c' rest' hne heq =>
    rw [List.cons.injEq] at heq
    rw [heq.1, heq.2]
  · next heq => exact absurd heq (List.cons_ne_nil c rest)

/-- Scanning step of `stripJsonFence` at a position where the
`'''json` pattern does not match. -/
theorem stripJsonFence_cons_ne (c : Char) (rest : List Char)
    (h : ∀ r, c = '`' → rest = '`' :: '`' :: 'j' :: 's' :: 'o' :: 'n' :: r → False) :
    stripJsonFence (c :: rest) = c :: stripJsonFence rest := by
  rw [stripJsonFence.eq_def]
  split
  · next r heq =>
    simp only [List.cons.injEq] at heq
    exact (h r heq.1 heq.2).elim
  · next c' rest' hne heq =>
    rw [List.cons.injEq] at heq
    rw [heq.1, heq.2]
  · next heq => exact absurd heq (List.cons_ne_nil c rest)

/-- Scanning step of `hasTicks` at a non-matching position. -/
theorem hasTicks_cons_eq (c : Char) (rest : List Char)
    (h : ∀ r, c = '`' → rest = '`' :: '`' :: r → False) :
    hasTicks (c :: rest) = hasTicks rest := by
  rw [hasTicks.eq_def]
  split
  · next r heq =>
    simp only [List.cons.injEq] at heq
    exact (h r heq.1 heq.2).elim
  · next c' rest' hne heq =>
    rw [List.cons.injEq] at heq
    rw [heq.2]
  · next heq => exact absurd heq (List.cons_ne_nil c rest)

/-- A fence-free cons gives the non-matching condition at its head. -/
theorem no_pattern_of_hasTicks_false (c : Char) (rest : List Char)
    (h : hasTicks (c :: rest) = false) :
    ∀ r, c = '`' → rest = '`' :: '`' :: r → False := by
  intro r hc hr
  subst hc
  rw [hr] at h
  rw [show hasTicks ('`' :: '`' :: '`' :: r) = true from rfl] at h
  exact Bool.noConfusion h

/-- A fence-free text has fence-free tails. -/
theorem hasTicks_tail (c : Char) (rest : List Char)
    (h : hasTicks (c :: rest) = false) : hasTicks rest = false := by
  rw [← hasTicks_cons_eq c rest (no_pattern_of_hasTicks_false c rest h)]
  exact h

/-- A fence-free cons also rules out the `'''json` pattern at its
head. -/
theorem no_json_pattern_of_hasTicks_false (c : Char) (rest : List Char)
    (h : hasTicks (c :: rest) = false) :
    ∀ r, c = '`' → rest = '`' :: '`' :: 'j' :: 's' :: 'o' :: 'n' :: r → False := by
  intro r hc hr
  subst hc
  rw [hr] at h
  rw [show hasTicks ('`' :: '`' :: '`' :: 'j' :: 's' :: 'o' :: 'n' :: r) = true from rfl] at h
  exact Bool.noConfusion h

/-- Fence removal is the identity on fence-free text. -/
theorem stripTicks_id (s : List Char) (h : hasTicks s = false) : stripTicks s = s := by
  induction s with
  | nil => rfl
  | cons c rest ih =>
    rw [stripTicks_cons_ne c rest (no_pattern_of_hasTicks_false c rest h)]
    rw [ih (hasTicks_tail c rest h)]

/-- Tagged-fence removal is the identity on fence-free text. -/
theorem stripJsonFence_id (s : List Char) (h : hasTicks s = false) :
    stripJsonFence s = s := by
  induction s with
  | nil => rfl
  | cons c rest ih =>
    rw [stripJsonFence_cons_ne c rest (no_json_pattern_of_hasTicks_false c rest h)]
    rw [ih (hasTicks_tail c rest h)]

/-- Leading-backtick count of a cons that is not a backtick. -/
theorem leadTicks_cons_ne (c : Char) (rest : List Char) (h : c ≠ '`') :
    leadTicks (c :: rest) = 0 := by
  rw [leadTicks.eq_def]
  split
  · next r heq =>
    simp only [List.cons.injEq] at heq
    exact absurd heq.1 h
  · rfl

/-- A text that does not begin with two backticks after its head has at
most one leading backtick. -/
theorem leadTicks_le_one (rest : List Char)
    (h : ∀ r, rest = '`' :: '`' :: r → False) : leadTicks rest ≤ 1 := by
  rcases rest with _ | ⟨d, _ | ⟨e, r⟩⟩
  · decide
  · by_cases hd : d = '`'
    · subst hd; decide
    · rw [leadTicks_cons_ne d [] hd]
      omega
  · by_cases hd : d = '`'
    · subst hd
      by_cases he : e = '`'
      · subst he; exact (h r rfl).elim
      · rw [show leadTicks ('`' :: e :: r) = leadTicks (e :: r) + 1 from rfl,
          leadTicks_cons_ne e r he]
    · rw [leadTicks_cons_ne d (e :: r) hd]
      omega

/-- Key invariant of the left-to-right scan: after removing every
three-backtick occurrence, none is left, and the leading-backtick run
has not grown. -/
theorem stripTicks_inv (s : List Char) :
    hasTicks (stripTicks s) = false ∧ leadTicks (stripTicks s) ≤ leadTicks s := by
  induction s using stripTicks.induct with
  | case1 rest ih =>
    rw [show stripTicks ('`' :: '`' :: '`' :: rest) = stripTicks rest from rfl]
    refine ⟨ih.1, le_trans ih.2 ?_⟩
    rw [show leadTicks ('`' :: '`' :: '`' :: rest) = leadTicks rest + 3 from rfl]
    omega
  | case2 c rest h ih =>
    rw [stripTicks_cons_ne c rest h]
    by_cases hc : c = '`'
    · subst hc
      have h1 : leadTicks rest ≤ 1 := leadTicks_le_one rest (fun r hr => h r rfl hr)
      have h2 : leadTicks (stripTicks rest) ≤ 1 := le_trans ih.2 h1
      constructor
      · rw [hasTicks_cons_eq '`' (stripTicks rest) ?hpat]
        · exact ih.1
        case hpat =>
          intro r _ hr
          rw [hr, show leadTicks ('`' :: '`' :: r) = leadTicks r + 2 from rfl] at h2
          omega
      · rw [show leadTicks ('`' :: stripTicks rest) = leadTicks (stripTicks rest) + 1
            from rfl,
          show leadTicks ('`' :: rest) = leadTicks rest + 1 from rfl]
        omega
    · constructor
      · rw [hasTicks_cons_eq c _ (fun r hc' _ => absurd hc' hc)]
        exact ih.1
      · rw [leadTicks_cons_ne c _ hc]
        omega
  | case3 => exact ⟨rfl, le_refl _⟩

/-- Dropping a whitespace run preserves fence-freeness. -/
theorem hasTicks_dropWhile (s : List Char) (h : hasTicks s = false) :
    hasTicks (s.dropWhile jsWhitespace) = false := by
  induction s with
  | nil => exact h
  | cons c rest ih =>
    rw [List.dropWhile_cons]
    by_cases hw : jsWhitespace c
    · simp only [hw, if_true]
      exact ih (hasTicks_tail c rest h)
    · simp only [hw, Bool.false_eq_true, if_false]
      exact h

/-- Trimming from the right preserves fence-freeness and does not grow
the leading-backtick run. -/
theorem trimEnd_inv (s : List Char) (h : hasTicks s = false) :
    hasTicks (trimEndL s) = false ∧ leadTicks (trimEndL s) ≤ leadTicks s := by
  induction s with
  | nil => exact ⟨rfl, le_refl _⟩
  | cons c rest ih =>
    obtain ⟨ih1, ih2⟩ := ih (hasTicks_tail c rest h)
    rw [show trimEndL (c :: rest) =
        (if (trimEndL rest).isEmpty && jsWhitespace c then [] else c :: trimEndL rest)
        from rfl]
    by_cases hemp : (trimEndL rest).isEmpty && jsWhitespace c
    · simp only [hemp, if_true]
      exact ⟨rfl, Nat.zero_le _⟩
    · simp only [hemp, Bool.false_eq_true, if_false]
      by_cases hc : c = '`'
      · subst hc
        have h1 : leadTicks rest ≤ 1 :=
          leadTicks_le_one rest (fun r hr =>
            no_pattern_of_hasTicks_false '`' rest h r rfl hr)
        have h2 : leadTicks (trimEndL rest) ≤ 1 := le_trans ih2 h1
        constructor
        · rw [hasTicks_cons_eq '`' (trimEndL rest) ?hpat]
          · exact ih1
          case hpat =>
            intro r _ hr
            rw [hr, show leadTicks ('`' :: '`' :: r) = leadTicks r + 2 from rfl] at h2
            omega
        · rw [show leadTicks ('`' :: trimEndL rest) = leadTicks (trimEndL rest) + 1
              from rfl,
            show leadTicks ('`' :: rest) = leadTicks rest + 1 from rfl]
          omega
      · constructor
        · rw [hasTicks_cons_eq c _ (fun r hc' _ => absurd hc' hc)]
          exact ih1
        · rw [leadTicks_cons_ne c _ hc]
          omega

/-- Trimming preserves fence-freeness. -/
theorem hasTicks_trimL (s : List Char) (h : hasTicks s = false) :
    hasTicks (trimL s) = false :=
  (trimEnd_inv _ (hasTicks_dropWhile s h)).1

/-- Right trim never lengthens. -/
theorem trimEnd_length_le (s : List Char) : (trimEndL s).length ≤ s.length := by
  induction s with
  | nil => exact le_refl _
  | cons c rest ih =>
    rw [show trimEndL (c :: rest) =
        (if (trimEndL rest).isEmpty && jsWhitespace c then [] else c :: trimEndL rest)
        from rfl]
    by_cases hemp : (trimEndL rest).isEmpty && jsWhitespace c
    · simp only [hemp, if_true, List.length_nil, List.length_cons]
      omega
    · simp only [hemp, Bool.false_eq_true, if_false, List.length_cons]
      omega

/-- Right trim is idempotent. -/
theorem trimEnd_idem (s : List Char) : trimEndL (trimEndL s) = trimEndL s := by
  induction s with
  | nil => rfl
  | cons c rest ih =>
    rw [show trimEndL (c :: rest) =
        (if (trimEndL rest).isEmpty && jsWhitespace c then [] else c :: trimEndL rest)
        from rfl]
    by_cases hemp : (trimEndL rest).isEmpty && jsWhitespace c
    · simp only [hemp, if_true]
      rfl
    · simp only [hemp, Bool.false_eq_true, if_false]
      rw [show trimEndL (c :: trimEndL rest) =
          (if (trimEndL (trimEndL rest)).isEmpty && jsWhitespace c then []
           else c :: trimEndL (trimEndL rest)) from rfl]
      rw [ih]
      simp only [hemp, Bool.false_eq_true, if_false]

/-- A left-trimmed text stays left-trimmed after a right trim. -/
theorem dropWhile_trimEnd (s : List Char) (h : s.dropWhile jsWhitespace = s) :
    (trimEndL s).dropWhile jsWhitespace = trimEndL s := by
  rcases s with _ | ⟨c, rest⟩
  · rfl
  · have hc : jsWhitespace c = false := by
      rw [List.dropWhile_cons] at h
      by_cases hw : jsWhitespace c
      · simp only [hw, if_true] at h
        have := congrArg List.length h
        have hle : (rest.dropWhile jsWhitespace).length ≤ rest.length :=
          (List.dropWhile_suffix jsWhitespace).length_le
        simp only [List.length_cons] at this
        omega
      · exact (Bool.eq_false_iff.mpr hw)
    rw [show trimEndL (c :: rest) =
        (if (trimEndL rest).isEmpty && jsWhitespace c then [] else c :: trimEndL rest)
        from rfl]
    by_cases hemp : (trimEndL rest).isEmpty && jsWhitespace c
    · simp [hemp]
    · simp only [hemp, Bool.false_eq_true, if_false]
      rw [List.dropWhile_cons]
      simp only [hc, Bool.false_eq_true, if_false]

/-- The JS trim is idempotent. -/
theorem trimL_idem (s : List Char) : trimL (trimL s) = trimL s := by
  unfold trimL
  rw [dropWhile_trimEnd (s.dropWhile jsWhitespace) (List.dropWhile_idempotent ..)]
  exact trimEnd_idem _

/-- A trimmed text is both left- and right-trimmed. -/
theorem trim_eq_self_parts (s : List Char) (h : trimL s = s) :
    s.dropWhile jsWhitespace = s ∧ trimEndL s = s := by
  have hdrop : s.dropWhile jsWhitespace = s := by
    have h1 : (s.dropWhile jsWhitespace).length ≤ s.length :=
      (List.dropWhile_suffix jsWhitespace).length_le
    have h2 : s.length ≤ (s.dropWhile jsWhitespace).length := by
      conv_lhs => rw [← h]
      unfold trimL
      exact trimEnd_length_le _
    exact (List.dropWhile_suffix jsWhitespace).eq_of_length (by omega)
  refine ⟨hdrop, ?_⟩
  unfold trimL at h
  rw [hdrop] at h
  exact h

/-- Appending a trailing whitespace character does not change the right
trim. -/
theorem trimEnd_append_nl (s : List Char) : trimEndL (s ++ ['\n']) = trimEndL s := by
  induction s with
  | nil => rfl
  | cons c rest ih =>
    rw [List.cons_append]
    rw [show trimEndL (c :: (rest ++ ['\n'])) =
        (if (trimEndL (rest ++ ['\n'])).isEmpty && jsWhitespace c then []
         else c :: trimEndL (rest ++ ['\n'])) from rfl]
    rw [ih]
    rw [show trimEndL (c :: rest) =
        (if (trimEndL rest).isEmpty && jsWhitespace c then [] else c :: trimEndL rest)
        from rfl]

/-- Trim of the stripped wrap remainder `\n ++ p ++ \n` gives back a
trimmed `p`. -/
theorem trimL_sandwich (p : List Char) (h1 : p.dropWhile jsWhitespace = p)
    (h2 : trimEndL p = p) : trimL ('\n' :: (p ++ ['\n'])) = p := by
  unfold trimL
  rw [List.dropWhile_cons]
  simp only [show jsWhitespace '\n' = true from rfl, if_true]
  rcases p with _ | ⟨c, rest⟩
  · rfl
  · have hc : jsWhitespace c = false := by
      rw [List.dropWhile_cons] at h1
      by_cases hw : jsWhitespace c
      · simp only [hw, if_true] at h1
        have := congrArg List.length h1
        have hle : (rest.dropWhile jsWhitespace).length ≤ rest.length :=
          (List.dropWhile_suffix jsWhitespace).length_le
        simp only [List.length_cons] at this
        omega
      · exact (Bool.eq_false_iff.mpr hw)
    rw [List.cons_append, List.dropWhile_cons]
    simp only [hc, Bool.false_eq_true, if_false]
    rw [← List.cons_append, trimEnd_append_nl]
    exact h2

/-- The closing fence `\n'''` survives the tagged-fence removal when the
payload before it is fence-free: no `'''json` occurrence can sit inside
the payload, span the boundary, or fit in the four-character tail. -/
theorem stripJsonFence_append_tail (p : List Char) (h : hasTicks p = false) :
    stripJsonFence (p ++ '\n' :: '`' :: '`' :: '`' :: []) =
      p ++ '\n' :: '`' :: '`' :: '`' :: [] := by
  induction p with
  | nil => rfl
  | cons c p' ih =>
    rw [List.cons_append, stripJsonFence_cons_ne c _ ?hpat]
    · rw [ih (hasTicks_tail c p' h)]
    case hpat =>
      intro r hc hr
      subst hc
      rcases p' with _ | ⟨d, _ | ⟨e, p''⟩⟩
      · rw [List.nil_append] at hr
        injection hr with h1 _
        exact absurd h1 (by decide)
      · rw [List.cons_append, List.nil_append] at hr
        injection hr with h1 hr
        injection hr with h2 _
        exact absurd h2 (by decide)
      · rw [List.cons_append, List.cons_append] at hr
        injection hr with h1 hr
        injection hr with h2 _
        subst h1
        subst h2
        rw [show hasTicks ('`' :: '`' :: '`' :: p'') = true from rfl] at h
        exact Bool.noConfusion h

/-- The fence removal turns `p ++ \n'''` into `p ++ \n` when `p` is
fence-free: the only three-backtick occurrence is the closing fence
itself. -/
theorem stripTicks_append_tail (p : List Char) (h : hasTicks p = false) :
    stripTicks (p ++ '\n' :: '`' :: '`' :: '`' :: []) = p ++ ['\n'] := by
  induction p with
  | nil => rfl
  | cons c p' ih =>
    rw [List.cons_append, stripTicks_cons_ne c _ ?hpat]
    · rw [ih (hasTicks_tail c p' h)]
      rfl
    case hpat =>
      intro r hc hr
      subst hc
      rcases p' with _ | ⟨d, _ | ⟨e, p''⟩⟩
      · rw [List.nil_append] at hr
        injection hr with h1 _
        exact absurd h1 (by decide)
      · rw [List.cons_append, List.nil_append] at hr
        injection hr with h1 hr
        injection hr with h2 _
        exact absurd h2 (by decide)
      · rw [List.cons_append, List.cons_append] at hr
        injection hr with h1 hr
        injection hr with h2 _
        subst h1
        subst h2
        rw [show hasTicks ('`' :: '`' :: '`' :: p'') = true from rfl] at h
        exact Bool.noConfusion h

/-- Full strip of a fenced wrap of a fence-free, trimmed payload gives
back the payload. -/
theorem stripFencesL_wrap (p : List Char) (h : hasTicks p = false)
    (htrim : trimL p = p) :
    stripFencesL ('`' :: '`' :: '`' :: 'j' :: 's' :: 'o' :: 'n' :: '\n' ::
      (p ++ '\n' :: '`' :: '`' :: '`' :: [])) = p := by
  unfold stripFencesL
  rw [show stripJsonFence ('`' :: '`' :: '`' :: 'j' :: 's' :: 'o' :: 'n' :: '\n' ::
      (p ++ '\n' :: '`' :: '`' :: '`' :: [])) =
      '\n' :: stripJsonFence (p ++ '\n' :: '`' :: '`' :: '`' :: []) from rfl]
  rw [stripJsonFence_append_tail p h]
  rw [show stripTicks ('\n' :: (p ++ '\n' :: '`' :: '`' :: '`' :: [])) =
      '\n' :: stripTicks (p ++ '\n' :: '`' :: '`' :: '`' :: []) from rfl]
  rw [stripTicks_append_tail p h]
  obtain ⟨h1, h2⟩ := trim_eq_self_parts p htrim
  exact trimL_sandwich p h1 h2

/-- The stripped text never contains a fence. -/
theorem stripFences_no_ticks (s : List Char) : hasTicks (stripFencesL s) = false :=
  hasTicks_trimL _ (stripTicks_inv (stripJsonFence s)).1

/-- Fence stripping is idempotent. -/
theorem stripFencesL_idem (s : List Char) :
    stripFencesL (stripFencesL s) = stripFencesL s := by
  have hz : hasTicks (trimL (stripTicks (stripJsonFence s))) = false :=
    stripFences_no_ticks s
  conv_lhs => unfold stripFencesL
  rw [stripJsonFence_id _ hz, stripTicks_id _ hz, trimL_idem]
  rfl

/-- Fence stripping is the identity on fence-free, trimmed text. -/
theorem stripFencesL_noFences (p : List Char) (h : hasTicks p = false)
    (htrim : trimL p = p) : stripFencesL p = p := by
  unfold stripFencesL
  rw [stripJsonFence_id p h, stripTicks_id p h, htrim]

/-- Character data of the fenced wrap. -/
theorem fencedWrap_data (p : String) :
    (fencedWrap p).data =
      '`' :: '`' :: '`' :: 'j' :: 's' :: 'o' :: 'n' :: '\n' ::
        (p.data ++ '\n' :: '`' :: '`' :: '`' :: []) := by
  unfold fencedWrap
  simp [String.data_append, List.append_assoc]

/-- String form of the wrap roundtrip. -/
theorem stripFencesStr_wrap (p : String) (h : hasTicks p.data = false)
    (htrim : trimL p.data = p.data) : stripFencesStr (fencedWrap p) = p := by
  unfold stripFencesStr
  rw [fencedWrap_data, stripFencesL_wrap p.data h htrim]

/-! ## C3 — fence stripping versus parsing -/

set_option maxRecDepth 8000 in
/-- Counterexample to C3 as universally stated: the global
`replace(/'''/g, "")` also deletes backtick fences that sit inside a
JSON string literal of the payload, so for such a payload the parse
after stripping the fenced wrap differs from the parse of the bare
payload (`"a'''b"` becomes `"ab"`). -/
theorem fence_strip_corrupts_embedded_fence :
    parseJson (stripFencesStr (fencedWrap "\x7b\"analysis\":\"a```b\"\x7d")) ≠
      parseJson "\x7b\"analysis\":\"a```b\"\x7d" := by
  intro hcontra
  rw [show parseJson (stripFencesStr (fencedWrap "\x7b\"analysis\":\"a```b\"\x7d")) =
      some (.obj [("analysis", .str "ab")]) from rfl,
    show parseJson "\x7b\"analysis\":\"a```b\"\x7d" =
      some (.obj [("analysis", .str "a```b")]) from rfl] at hcontra
  simp only [Option.some.injEq, Json.obj.injEq, List.cons.injEq, Prod.mk.injEq,
    Json.str.injEq] at hcontra
  exact absurd hcontra.1.2 (by decide)

/-- C3 amended: for every payload that itself contains no three-backtick
fence and carries no leading or trailing whitespace, stripping the
fenced wrap returns exactly the payload — hence the same parsed result —
and stripping such a payload directly leaves it (and its parse)
unchanged; fence stripping is idempotent on every input. -/
theorem fence_strip_roundtrip :
    (∀ p : String, hasTicks p.data = false → trimL p.data = p.data →
        stripFencesStr (fencedWrap p) = p ∧
        parseJson (stripFencesStr (fencedWrap p)) = parseJson p) ∧
    (∀ s : String, stripFencesStr (stripFencesStr s) = stripFencesStr s) ∧
    (∀ p : String, hasTicks p.data = false → trimL p.data = p.data →
        stripFencesStr p = p ∧ parseJson (stripFencesStr p) = parseJson p) := by
  refine ⟨?_, ?_, ?_⟩
  · intro p h ht
    have he := stripFencesStr_wrap p h ht
    exact ⟨he, by rw [he]⟩
  · intro s
    unfold stripFencesStr
    rw [show (⟨stripFencesL s.data⟩ : String).data = stripFencesL s.data from rfl]
    rw [stripFencesL_idem]
  · intro p h ht
    have he : stripFencesStr p = p := by
      conv_lhs => unfold stripFencesStr
      rw [stripFencesL_noFences p.data h ht]
    exact ⟨he, by rw [he]⟩

set_option maxRecDepth 8000 in
/-- Witness for the amended C3 at a fence-free payload of the provider's
shape. -/
theorem fence_strip_roundtrip_witness :
    stripFencesStr (fencedWrap "\x7b\"conversions\":[],\"analysis\":\"ok\"\x7d") =
      "\x7b\"conversions\":[],\"analysis\":\"ok\"\x7d" ∧
    parseJson (stripFencesStr (fencedWrap "\x7b\"conversions\":[],\"analysis\":\"ok\"\x7d")) =
      parseJson "\x7b\"conversions\":[],\"analysis\":\"ok\"\x7d" :=
  fence_strip_roundtrip.1 "\x7b\"conversions\":[],\"analysis\":\"ok\"\x7d"
    (by decide) (by decide)

/-! ## C1 — the empty-input guard -/

/-- Counterexample to C1: the whitespace-only input `"   "` is truthy in
JS, so it passes the route action's `if (!inputCode)` guard, and
`runConversionTask` itself has no emptiness check: with an API key
present the provider call is issued (network flag `true`), where the
claim demands a synchronous failure with no network call. -/
theorem whitespace_input_reaches_provider :
    ("   " : String).data.all jsWhitespace = true ∧
    ("   " : String) ≠ "" ∧
    (cssAction (some "   ") (some "test-key") (fun _ => "parse error")
        ⟨true, ⟨none, none⟩⟩).2 = true :=
  ⟨by decide, by decide, rfl⟩

/-- C1 amended: the route action rejects exactly a missing or empty
(JS-falsy) `inputCode` synchronously with `{error: "No input provided"}`
and no network call; every non-empty input — whitespace-only included —
is handed to `runConversionTask`, which issues the provider call whenever
the API key is present. -/
theorem empty_input_guard :
    (∀ (inputCode : Option String) (apiKey : Option String)
        (pem : String → String) (resp : ProviderResp),
        jsTruthyStr inputCode = false →
        cssAction inputCode apiKey pem resp =
          (.obj [("error", .str "No input provided")], false)) ∧
    (∀ (s : String) (apiKey : Option String) (pem : String → String)
        (resp : ProviderResp),
        s ≠ "" → jsTruthyStr apiKey = true →
        (cssAction (some s) apiKey pem resp).2 = true) := by
  constructor
  · intro i k pem r h
    simp [cssAction, h]
  · intro s k pem r hs hk
    have htr : jsTruthyStr (some s) = true := jsTruthyStr_of_ne s hs
    have hnet := runConversionTask_network k pem ((some s).getD "") r
    rw [hk] at hnet
    unfold cssAction
    simp only [htr, Bool.not_true, Bool.false_eq_true, if_false]
    rcases hrun : runConversionTask k pem ((some s).getD "") r with ⟨res, n⟩
    rw [hrun] at hnet
    cases res <;> simpa using hnet

/-- Witness for the amended C1: the empty input is rejected without a
network call, and the non-empty input `".box"` issues the provider
call. -/
theorem empty_input_guard_witness :
    cssAction (some "") (some "key") (fun _ => "") ⟨true, ⟨none, none⟩⟩ =
      (.obj [("error", .str "No input provided")], false) ∧
    (cssAction (some ".box") (some "key") (fun _ => "") ⟨true, ⟨none, none⟩⟩).2 = true :=
  ⟨empty_input_guard.1 (some "") (some "key") (fun _ => "") ⟨true, ⟨none, none⟩⟩ rfl,
   empty_input_guard.2 ".box" (some "key") (fun _ => "") ⟨true, ⟨none, none⟩⟩
     (by decide) rfl⟩

/-! ## C4 — provider error propagation -/

/-- C4: with the API key present, any non-2xx provider response makes
`runConversionTask` fail with `AI Service Failed:` wrapping the message
selected by `errMsg` — the provider's human-readable `error.message`
when truthy, else the provider's `error.status` when truthy, else the
generic `"API Error"` label. -/
theorem provider_error_selection :
    (∀ (apiKey : Option String) (pem : String → String) (inputCode : String)
        (resp : ProviderResp),
        jsTruthyStr apiKey = true → resp.ok = false →
        runConversionTask apiKey pem inputCode resp =
          (.error ("AI Service Failed: " ++ errMsg resp.body), true)) ∧
    (∀ (e : ProviderErrorInfo) (cands : Option (List ProviderCandidate)) (m : String),
        m ≠ "" → e.message = some m → errMsg ⟨some e, cands⟩ = m) ∧
    (∀ (e : ProviderErrorInfo) (cands : Option (List ProviderCandidate)) (st : String),
        (e.message = none ∨ e.message = some "") → st ≠ "" → e.status = some st →
        errMsg ⟨some e, cands⟩ = st) ∧
    (∀ (e : Option ProviderErrorInfo) (cands : Option (List ProviderCandidate)),
        (e.bind (·.message) = none ∨ e.bind (·.message) = some "") →
        (e.bind (·.status) = none ∨ e.bind (·.status) = some "") →
        errMsg ⟨e, cands⟩ = "API Error") := by
  refine ⟨?_, ?_, ?_, ?_⟩
  · intro k pem inp r hk ho
    unfold runConversionTask
    simp [hk, ho]
  · intro e cands m hm hmsg
    have : m.isEmpty = false := by
      rw [Bool.eq_false_iff]
      intro he
      exact hm ((String.isEmpty_iff m).mp he)
    simp [errMsg, jsOrStr, hmsg, this]
  · intro e cands st hmsg hst hstat
    have hse : st.isEmpty = false := by
      rw [Bool.eq_false_iff]
      intro he
      exact hst ((String.isEmpty_iff st).mp he)
    rcases hmsg with h | h <;>
      simp [errMsg, jsOrStr, h, hstat, hse, show ("" : String).isEmpty = true from rfl]
  · intro e cands hmsg hstat
    rcases hmsg with h | h <;> rcases hstat with h' | h' <;>
      simp [errMsg, jsOrStr, h, h', show ("" : String).isEmpty = true from rfl]

/-- Witness for C4 at the spec's example: status non-2xx with body
`{error: {message: "X"}}` fails carrying message `"X"`. -/
theorem provider_error_selection_witness :
    runConversionTask (some "key") (fun _ => "") "in"
        ⟨false, ⟨some ⟨some "X", some "STATUS_400"⟩, none⟩⟩ =
      (.error ("AI Service Failed: " ++
        errMsg ⟨some ⟨some "X", some "STATUS_400"⟩, none⟩), true) ∧
    errMsg ⟨some ⟨some "X", some "STATUS_400"⟩, none⟩ = "X" :=
  ⟨provider_error_selection.1 (some "key") (fun _ => "") "in"
      ⟨false, ⟨some ⟨some "X", some "STATUS_400"⟩, none⟩⟩ rfl rfl,
   provider_error_selection.2.1 ⟨some "X", some "STATUS_400"⟩ none "X" (by decide) rfl⟩

/-- A string with the `AI Service Failed: ` prefix is never empty. -/
theorem wrapped_ne_empty (x : String) : "AI Service Failed: " ++ x ≠ "" := by
  intro h
  have hdata : ("AI Service Failed: " ++ x).data = ("" : String).data :=
    congrArg String.data h
  rw [String.data_append,
    show ("AI Service Failed: " : String).data = 'A' :: "I Service Failed: ".data from rfl]
    at hdata
  simp at hdata

/-! ## C9 — error responses reset the view -/

/-- C9: whenever the fetcher data carries a truthy `error` field — the
branch every error result of the route action takes — the handler sets
the visible analysis to the labelled error message and resets the
conversions list to `[]` with no history write, so a previous successful
result is never left displayed alongside an error; and every message the
service throws is non-empty, so an error result never slips past the
truthiness test. -/
theorem error_response_resets_view :
    (∀ (data : Json) (userId : Option String) (cssInput : String) (now : Int)
        (prev : ViewState),
        jsTruthyJson data = true →
        jsTruthyJson ((jsonField data "error").getD .null) = true →
        handleFetcherData data userId cssInput now prev =
          ({ prev with
              analysis :=
                .str ("Error: " ++ jsToString ((jsonField data "error").getD .null)),
              conversions := .arr [] }, [])) ∧
    (∀ (msg : String) (userId : Option String) (cssInput : String) (now : Int)
        (prev : ViewState),
        msg ≠ "" →
        handleFetcherData (.obj [("error", .str msg)]) userId cssInput now prev =
          ({ prev with analysis := .str ("Error: " ++ msg),
                       conversions := .arr [] }, [])) ∧
    (∀ (apiKey : Option String) (pem : String → String) (inputCode : String)
        (resp : ProviderResp) (msg : String) (n : Bool),
        runConversionTask apiKey pem inputCode resp = (.error msg, n) → msg ≠ "") := by
  refine ⟨?_, ?_, ?_⟩
  · intro data userId cssInput now prev hdata herr
    unfold handleFetcherData
    simp [hdata, herr]
  · intro msg userId cssInput now prev hmsg
    have hne : msg.isEmpty = false := by
      rw [Bool.eq_false_iff]
      intro he
      exact hmsg ((String.isEmpty_iff msg).mp he)
    unfold handleFetcherData
    simp [jsTruthyJson, jsonField, List.lookup, hne, jsToString]
  · intro k pem inp r msg n hrun
    unfold runConversionTask at hrun
    by_cases hk : jsTruthyStr k
    · simp only [hk, Bool.not_true, Bool.false_eq_true, if_false] at hrun
      by_cases ho : r.ok
      · simp only [ho, Bool.not_true, Bool.false_eq_true, if_false] at hrun
        rcases hp : parseJson (stripFencesStr (extractText r.body)) with _ | j
        · rw [hp] at hrun
          simp only [Prod.mk.injEq, Except.error.injEq] at hrun
          rw [← hrun.1]
          exact wrapped_ne_empty _
        · rw [hp] at hrun
          simp at hrun
      · simp only [Bool.not_eq_true] at ho
        simp only [ho, Bool.not_false, if_true, Prod.mk.injEq, Except.error.injEq] at hrun
        rw [← hrun.1]
        exact wrapped_ne_empty _
    · simp only [Bool.not_eq_true] at hk
      simp only [hk, Bool.not_false, if_true, Prod.mk.injEq, Except.error.injEq] at hrun
      rw [← hrun.1]
      decide

/-- Witness for C9: the action's `"No input provided"` error result
clears previously displayed conversions and shows the labelled
message. -/
theorem error_response_resets_view_witness :
    handleFetcherData (.obj [("error", .str "No input provided")]) (some "u1") ".box" 42
        ⟨".old", .arr [.obj [("selector", .str ".a")]], .str "old analysis"⟩ =
      (⟨".old", .arr [], .str ("Error: " ++ "No input provided")⟩, []) :=
  error_response_resets_view.2.1 "No input provided" (some "u1") ".box" 42
    ⟨".old", .arr [.obj [("selector", .str ".a")]], .str "old analysis"⟩ (by decide)

/-! ## C10 — history writes require a user id -/

/-- C10: the handler issues a history write only when a truthy user id is
present at response-handling time, and a successful result (truthy
`conversions`, non-truthy `error`) is displayed whether or not a user id
is present — without one, the display still happens and no write is
attempted. -/
theorem history_write_requires_user :
    (∀ (data : Json) (userId : Option String) (cssInput : String) (now : Int)
        (prev : ViewState),
        (handleFetcherData data userId cssInput now prev).2 ≠ [] →
        jsTruthyStr userId = true) ∧
    (∀ (data : Json) (userId : Option String) (cssInput : String) (now : Int)
        (prev : ViewState),
        jsTruthyJson data = true →
        jsTruthyJson ((jsonField data "error").getD .null) = false →
        jsTruthyJson ((jsonField data "conversions").getD .null) = true →
        handleFetcherData data userId cssInput now prev =
          ({ prev with analysis := (jsonField data "analysis").getD .null,
                       conversions := (jsonField data "conversions").getD .null },
           if jsTruthyStr userId then
             [{ type := "css", input := cssInput,
                output := jsonStringify ((jsonField data "conversions").getD .null),
                analysis := (jsonField data "analysis").getD .null,
                timestamp := now }]
           else [])) := by
  constructor
  · intro data userId cssInput now prev hw
    unfold handleFetcherData at hw
    by_cases hdata : jsTruthyJson data
    · simp only [hdata, Bool.not_true, Bool.false_eq_true, if_false] at hw
      by_cases herr : jsTruthyJson ((jsonField data "error").getD .null)
      · simp [herr] at hw
      · simp only [herr, Bool.false_eq_true, if_false] at hw
        by_cases hconv : jsTruthyJson ((jsonField data "conversions").getD .null)
        · simp only [hconv, if_true] at hw
          by_cases hu : jsTruthyStr userId
          · exact hu
          · simp [hu] at hw
        · simp [hconv] at hw
    · simp only [Bool.not_eq_true] at hdata
      simp [hdata] at hw
  · intro data userId cssInput now prev hdata herr hconv
    unfold handleFetcherData
    simp only [hdata, Bool.not_true, Bool.false_eq_true, if_false, herr, hconv, if_true]
    by_cases hu : jsTruthyStr userId <;> simp [hu]

/-- Witness for C10: a provider result with one conversion is displayed
and written for the signed-in user `u1`. -/
theorem history_write_requires_user_witness :
    handleFetcherData
        (.obj [("conversions", .arr [.obj [("selector", .str ".a"),
                                           ("tailwind", .str "p-4")]]),
               ("analysis", .str "ok")])
        (some "u1") ".a" 99 ⟨"", .arr [], .str ""⟩ =
      (⟨"", .arr [.obj [("selector", .str ".a"), ("tailwind", .str "p-4")]],
         .str "ok"⟩,
       if jsTruthyStr (some "u1") then
         [{ type := "css", input := ".a",
            output := jsonStringify ((jsonField
              (.obj [("conversions", .arr [.obj [("selector", .str ".a"),
                                                 ("tailwind", .str "p-4")]]),
                     ("analysis", .str "ok")]) "conversions").getD .null),
            analysis := .str "ok", timestamp := 99 }]
       else []) :=
  history_write_requires_user.2
    (.obj [("conversions", .arr [.obj [("selector", .str ".a"),
                                       ("tailwind", .str "p-4")]]),
           ("analysis", .str "ok")])
    (some "u1") ".a" 99 ⟨"", .arr [], .str ""⟩ rfl rfl rfl

/-! ## C6 — unparseable history items degrade to one synthetic item -/

/-- Counterexample to C6: two history items with different unparseable
raw outputs load to the same single synthetic conversions item, whose
content is the fixed message `"Could not parse history item."` — the
synthetic item therefore does not carry the raw legacy value. -/
theorem legacy_item_fixed_message :
    parseJson "legacy css data (a)" = none ∧
    parseJson "legacy css data (b)" = none ∧
    ("legacy css data (a)" : String) ≠ "legacy css data (b)" ∧
    (loadHistoryItemView ⟨"h1", "css", "in1", "legacy css data (a)", "an1", 5⟩
        ⟨"", .arr [], .str ""⟩).conversions =
      (loadHistoryItemView ⟨"h2", "css", "in2", "legacy css data (b)", "an2", 6⟩
        ⟨"", .arr [], .str ""⟩).conversions ∧
    (loadHistoryItemView ⟨"h1", "css", "in1", "legacy css data (a)", "an1", 5⟩
        ⟨"", .arr [], .str ""⟩).conversions =
      .arr [.obj [("error", .str "Could not parse history item.")]] :=
  ⟨rfl, rfl, by decide, rfl, rfl⟩

/-- C6 amended: loading a `css` history item whose `output` does not
parse as JSON yields a single synthetic item carrying the fixed message
`"Could not parse history item."` (not the raw legacy value); the load
path is a total function — the `catch` keeps it from throwing — and the
item's input and analysis are still loaded. -/
theorem legacy_item_degrades (item : HistoryItem) (prev : ViewState)
    (htype : item.type = "css") (hparse : parseJson item.output = none) :
    loadHistoryItemView item prev =
      { cssInput := item.input, analysis := .str item.analysis,
        conversions := .arr [.obj [("error", .str "Could not parse history item.")]] } := by
  unfold loadHistoryItemView
  simp [htype, hparse]

/-- Witness for the amended C6 at a concrete unparseable item. -/
theorem legacy_item_degrades_witness :
    loadHistoryItemView ⟨"h1", "css", ".box", "not-json-output", "summary", 7⟩
        ⟨"", .arr [], .str ""⟩ =
      { cssInput := ".box", analysis := .str "summary",
        conversions := .arr [.obj [("error", .str "Could not parse history item.")]] } :=
  legacy_item_degrades ⟨"h1", "css", ".box", "not-json-output", "summary", 7⟩
    ⟨"", .arr [], .str ""⟩ rfl rfl

/-- Witness for C8: toggling `keepForever` for user `u1` over a settings
document that also holds a `theme` field flips the flag and preserves the
`theme` field. -/
theorem settings_default_and_merge_witness :
    (toggleKeepHistory (some "u1") false (some [("theme", Json.str "dark")])).1 = !false ∧
    ∃ newDoc,
      (toggleKeepHistory (some "u1") false (some [("theme", Json.str "dark")])).2 =
        some newDoc ∧
      newDoc.lookup "keepForever" = some (.bool (!false)) ∧
      ∀ k, k ≠ "keepForever" →
        newDoc.lookup k =
          ((some [("theme", Json.str "dark")] :
              Option (List (String × Json))).getD []).lookup k :=
  settings_default_and_merge.2 (some "u1") false (some [("theme", Json.str "dark")]) rfl

end CodeShift
